import Mathlib

/-!
# Verification of the Solana prediction-market indexer core

A shallow embedding, in Lean 4, of the core components of the indexer:
the event dispatcher with its sequential processing queue and bounded
replay buffer (`src/indexer/eventDispatcher.ts`), the binary decoder
framework (`src/programs/shared/accountDecoder.ts`), the market
normalizer (`src/normalize/marketNormalizer.ts`), the Switchboard and
Hxro protocol adapters (`src/programs/switchboard/adapter.ts`,
`src/programs/hxro/adapter.ts`), and the RPC client with retry and
failover (`src/rpc/connection.ts`, `src/utils/retry.ts`).

Each definition is translated from the TypeScript source.  JavaScript
numbers are modelled as `ℚ` (for values that undergo division) or
`Nat`/`Int` (for counters and timestamps); JavaScript's `x || d`
defaulting on falsy values is modelled explicitly.  Asynchronous code
is modelled as explicit state machines over scripted worlds, where an
interleaving of producer and consumer steps is chosen by an arbitrary
action list.
-/

namespace SolanaIndexer

/-! ## Event dispatcher (`src/indexer/eventDispatcher.ts`)

Events are identified by an id; the payload of a `MarketEvent` is
irrelevant to queueing and delivery order, so it is not modelled. -/

/-- A dispatched market event (identified by an id). -/
structure MarketEvent where
  id : Nat
deriving DecidableEq, Repr

/-- One entry of the replay buffer: `{ event, timestamp: Date.now() }`
as pushed by `addToReplayBuffer`. -/
structure BufferedEvent where
  event : MarketEvent
  timestamp : Nat
deriving DecidableEq, Repr

/-- Replay-buffer configuration (`ReplayBufferOptions`); the optional
TTL sweep is independent of the size bound and is not modelled. -/
structure ReplayBufferOptions where
  enabled : Bool
  maxSize : Nat
deriving Repr

/-- `EventDispatcher.addToReplayBuffer`: push `{event, timestamp}` onto
the buffer, then `splice(0, excess)` (drop the oldest entries from the
front) whenever the length exceeds `maxSize`. -/
def addToReplayBuffer (cfg : ReplayBufferOptions) (buf : List BufferedEvent)
    (ev : MarketEvent) (now : Nat) : List BufferedEvent :=
  if cfg.maxSize < (buf ++ [BufferedEvent.mk ev now]).length then
    (buf ++ [BufferedEvent.mk ev now]).drop ((buf ++ [BufferedEvent.mk ev now]).length - cfg.maxSize)
  else
    buf ++ [BufferedEvent.mk ev now]

/-- Insert a sequence of `(event, arrival time)` pairs into an initially
empty replay buffer, one `addToReplayBuffer` call per event. -/
def replayInsertAll (cfg : ReplayBufferOptions)
    (arrivals : List (MarketEvent × Nat)) : List BufferedEvent :=
  arrivals.foldl (fun buf a => addToReplayBuffer cfg buf a.1 a.2) []

/-- The state of one `EventDispatcher`, together with ghost history
fields: `dispatched` records every event ever passed to `dispatch`, in
call order; `delivered` records every event handed to the handler set
by `processEvent`, in processing order; `activeDrains` counts the
`processQueue` drain loops currently running. -/
structure DispatcherState where
  processingQueue : List MarketEvent
  isProcessing : Bool
  delivered : List MarketEvent
  dispatched : List MarketEvent
  activeDrains : Nat
deriving DecidableEq, Repr

/-- A freshly constructed dispatcher. -/
def initDispatcher : DispatcherState :=
  { processingQueue := [], isProcessing := false, delivered := [],
    dispatched := [], activeDrains := 0 }

/-- The synchronous prefix of `dispatch(event)`:
`processingQueue.push(event)` followed by `processQueue()`'s entry
check.  `processQueue` returns at once when `isProcessing` is already
true (the call only enqueues); otherwise it sets `isProcessing = true`
and becomes the single active drain loop.  In the JavaScript runtime
this whole prefix runs without an `await`, hence atomically. -/
def dispatchStep (s : DispatcherState) (e : MarketEvent) : DispatcherState :=
  if s.isProcessing then
    { s with processingQueue := s.processingQueue ++ [e],
             dispatched := s.dispatched ++ [e] }
  else
    { s with processingQueue := s.processingQueue ++ [e],
             dispatched := s.dispatched ++ [e],
             isProcessing := true,
             activeDrains := s.activeDrains + 1 }

/-- One iteration of the drain loop in `processQueue`: while the queue
is non-empty, `shift()` the head and run `processEvent` on it (the
event is handed to every registered handler); when the queue is empty
the loop exits and the `finally` block resets `isProcessing`. -/
def drainStep (s : DispatcherState) : DispatcherState :=
  if s.isProcessing then
    match s.processingQueue with
    | [] => { s with isProcessing := false, activeDrains := s.activeDrains - 1 }
    | e :: rest => { s with processingQueue := rest, delivered := s.delivered ++ [e] }
  else s

/-- Interleaved actions on one dispatcher: a producer calling
`dispatch e`, or the active drain loop taking one step. -/
inductive DispatcherAct where
  | dispatch (e : MarketEvent)
  | drain
deriving DecidableEq, Repr

/-- Apply one action. -/
def dispatcherStep (s : DispatcherState) : DispatcherAct → DispatcherState
  | .dispatch e => dispatchStep s e
  | .drain => drainStep s

/-- Run an arbitrary interleaving of dispatch calls and drain-loop steps
from the initial dispatcher state. -/
def dispatcherRun (acts : List DispatcherAct) : DispatcherState :=
  acts.foldl dispatcherStep initDispatcher

/-- The dispatcher invariant: the delivery log followed by the pending
queue is exactly the dispatch history, and the number of active drain
loops is `1` when `isProcessing` and `0` otherwise. -/
def DispatcherInv (s : DispatcherState) : Prop :=
  s.dispatched = s.delivered ++ s.processingQueue ∧
  s.activeDrains = (if s.isProcessing then 1 else 0)

theorem dispatcherInv_init : DispatcherInv initDispatcher := by
  constructor <;> rfl

theorem dispatcherInv_step (s : DispatcherState) (a : DispatcherAct)
    (h : DispatcherInv s) : DispatcherInv (dispatcherStep s a) := by
  obtain ⟨h1, h2⟩ := h
  cases a with
  | dispatch e =>
    simp only [dispatcherStep, dispatchStep]
    by_cases hp : s.isProcessing <;>
      simp_all [DispatcherInv, List.append_assoc]
  | drain =>
    simp only [dispatcherStep, drainStep]
    by_cases hp : s.isProcessing
    · cases hq : s.processingQueue with
      | nil => simp_all [DispatcherInv]
      | cons e rest => simp_all [DispatcherInv, List.append_assoc]
    · simp_all [DispatcherInv]

theorem dispatcherInv_run (acts : List DispatcherAct) :
    DispatcherInv (dispatcherRun acts) := by
  suffices h : ∀ (l : List DispatcherAct) (s : DispatcherState),
      DispatcherInv s → DispatcherInv (l.foldl dispatcherStep s) by
    exact h acts initDispatcher dispatcherInv_init
  intro l
  induction l with
  | nil => intro s hs; exact hs
  | cons a l ih =>
    intro s hs
    exact ih (dispatcherStep s a) (dispatcherInv_step s a hs)

/-- C2: for every interleaving of `dispatch` calls and drain-loop steps
on one `EventDispatcher`, at most one drain loop is ever active (a
`dispatch` arriving while `isProcessing` only enqueues), and the
delivery log is exactly an initial segment of the dispatch history: the
events handed to the handlers are the dispatched events, one at a time,
in enqueue (FIFO) order, so no handler observes `e2` before `e1` when
`e1` was enqueued first. -/
theorem dispatcher_fifo_single_consumer (acts : List DispatcherAct) :
    (dispatcherRun acts).activeDrains ≤ 1 ∧
    (dispatcherRun acts).dispatched =
      (dispatcherRun acts).delivered ++ (dispatcherRun acts).processingQueue ∧
    (dispatcherRun acts).delivered =
      (dispatcherRun acts).dispatched.take (dispatcherRun acts).delivered.length := by
  obtain ⟨h1, h2⟩ := dispatcherInv_run acts
  refine ⟨?_, h1, ?_⟩
  · rw [h2]; split <;> omega
  · rw [h1]; exact (List.take_left _ _).symm

/-- Keeping the last `n` entries of `x ++ z` only looks at `z` when `z`
already has at least `n` entries. -/
theorem drop_keep_last_append (x z : List BufferedEvent) (n : Nat)
    (h : n ≤ z.length) :
    (x ++ z).drop ((x ++ z).length - n) = z.drop (z.length - n) := by
  have h1 : (x ++ z).length - n = x.length + (z.length - n) := by
    simp only [List.length_append]; omega
  rw [h1, List.drop_append]

/-- Trimming to the last `n` entries commutes with appending more
entries and trimming again. -/
theorem drop_last_append (l rest : List BufferedEvent) (n : Nat) :
    ((l.drop (l.length - n)) ++ rest).drop
        (((l.drop (l.length - n)) ++ rest).length - n) =
      (l ++ rest).drop ((l ++ rest).length - n) := by
  rcases le_or_lt l.length n with h | h
  · rw [Nat.sub_eq_zero_of_le h, List.drop_zero]
  · have hsplit : l.take (l.length - n) ++ (l.drop (l.length - n) ++ rest) = l ++ rest := by
      rw [← List.append_assoc, List.take_append_drop]
    have hlen : n ≤ (l.drop (l.length - n) ++ rest).length := by
      simp only [List.length_append, List.length_drop]; omega
    rw [← hsplit, drop_keep_last_append _ _ n hlen]

theorem addToReplayBuffer_eq (cfg : ReplayBufferOptions)
    (buf : List BufferedEvent) (ev : MarketEvent) (now : Nat) :
    addToReplayBuffer cfg buf ev now =
      (buf ++ [BufferedEvent.mk ev now]).drop ((buf ++ [BufferedEvent.mk ev now]).length - cfg.maxSize) := by
  unfold addToReplayBuffer
  by_cases h : cfg.maxSize < (buf ++ [BufferedEvent.mk ev now]).length
  · rw [if_pos h]
  · rw [if_neg h]
    have h0 : (buf ++ [BufferedEvent.mk ev now]).length - cfg.maxSize = 0 := by
      omega
    rw [h0, List.drop_zero]

theorem replayInsertAll_foldl (cfg : ReplayBufferOptions) :
    ∀ (arrivals : List (MarketEvent × Nat)) (buf : List BufferedEvent),
      buf.length ≤ cfg.maxSize →
      arrivals.foldl (fun b a => addToReplayBuffer cfg b a.1 a.2) buf =
        (buf ++ arrivals.map fun a => BufferedEvent.mk a.1 a.2).drop
          ((buf ++ arrivals.map fun a => BufferedEvent.mk a.1 a.2).length - cfg.maxSize) := by
  intro arrivals
  induction arrivals with
  | nil =>
    intro buf hb
    simp [Nat.sub_eq_zero_of_le hb]
  | cons a as ih =>
    intro buf hb
    have hstep : addToReplayBuffer cfg buf a.1 a.2 =
        (buf ++ [BufferedEvent.mk a.1 a.2]).drop
          ((buf ++ [BufferedEvent.mk a.1 a.2]).length - cfg.maxSize) :=
      addToReplayBuffer_eq cfg buf a.1 a.2
    have hlen : (addToReplayBuffer cfg buf a.1 a.2).length ≤ cfg.maxSize := by
      rw [hstep]
      simp only [List.length_drop, List.length_append]
      omega
    have h1 := ih (addToReplayBuffer cfg buf a.1 a.2) hlen
    rw [List.foldl_cons, h1, hstep, drop_last_append]
    simp [List.append_assoc]

/-- C7: the replay buffer never holds more than `maxSize` entries.
Inserting any sequence of events into an empty buffer leaves exactly
the most recent `min length maxSize` of them — the suffix of the
arrival sequence, in FIFO arrival order — the oldest entries having
been trimmed from the front on insertion.  In particular, after
`maxSize + k` insertions exactly the last `maxSize` remain. -/
theorem replayBuffer_bounded_most_recent (cfg : ReplayBufferOptions)
    (arrivals : List (MarketEvent × Nat)) :
    replayInsertAll cfg arrivals =
      (arrivals.map fun a => BufferedEvent.mk a.1 a.2).drop
        (arrivals.length - cfg.maxSize) ∧
    (replayInsertAll cfg arrivals).length = min arrivals.length cfg.maxSize ∧
    (replayInsertAll cfg arrivals).length ≤ cfg.maxSize := by
  have h := replayInsertAll_foldl cfg arrivals [] (by simp)
  refine ⟨?_, ?_, ?_⟩
  · rw [replayInsertAll, h]; simp
  · rw [replayInsertAll, h]; simp; omega
  · rw [replayInsertAll, h]; simp; omega

/-! ## Binary decoder framework (`src/programs/shared/accountDecoder.ts`)

Account data is a byte buffer (`List Nat`); a decoded account is an
account-type tag plus a JSON-safe field map.  A decoder that may throw
is modelled as a function into `Except`, an error being a thrown
exception. -/

/-- `DecodedAccount`: account-type tag plus serialized (JSON-safe)
decoded fields. -/
structure DecodedAccount where
  type : String
  data : List (String × String)
deriving DecidableEq, Repr

/-- `ManualAccountDecoder`: wraps an arbitrary decoding function for a
custom binary format.  `decoderFn` may throw (return `.error`). -/
structure ManualAccountDecoder where
  accountType : String
  decoderFn : List Nat → Except String (List (String × String))

/-- `ManualAccountDecoder.decode`: run `decoderFn` and wrap the result;
a thrown error is logged and rethrown. -/
def ManualAccountDecoder.decode (m : ManualAccountDecoder) (data : List Nat) :
    Except String DecodedAccount :=
  match m.decoderFn data with
  | .ok decoded => .ok ⟨m.accountType, decoded⟩
  | .error e => .error e

/-- `ManualAccountDecoder.validate`: `try { this.decode(data); return
true } catch { return false }` — total, never throws. -/
def ManualAccountDecoder.validate (m : ManualAccountDecoder) (data : List Nat) : Bool :=
  match m.decode data with
  | .ok _ => true
  | .error _ => false

/-- `BorshAccountDecoder`: wraps an Anchor `BorshCoder`'s
`accounts.decode(accountName, data)`, modelled as an abstract function
`coderDecode` (the coder is third-party library code).  The
`serializeData` step only reshapes the decoded value and is absorbed
into `coderDecode`'s output. -/
structure BorshAccountDecoder where
  accountName : String
  coderDecode : List Nat → Except String (List (String × String))

/-- `BorshAccountDecoder.decode`: run the Borsh coder and wrap the
result; a thrown error is logged and rethrown. -/
def BorshAccountDecoder.decode (b : BorshAccountDecoder) (data : List Nat) :
    Except String DecodedAccount :=
  match b.coderDecode data with
  | .ok decoded => .ok ⟨b.accountName, decoded⟩
  | .error e => .error e

/-- `BorshAccountDecoder.validate`: return `false` outright when the
buffer is shorter than 8 bytes, otherwise `try { this.decode(data);
return true } catch { return false }` — total, never throws. -/
def BorshAccountDecoder.validate (b : BorshAccountDecoder) (data : List Nat) : Bool :=
  if data.length < 8 then false
  else
    match b.decode data with
    | .ok _ => true
    | .error _ => false

/-- The `AccountDecoder` interface seen by `MultiAccountDecoder`: a
`decode` that may throw and a boolean `validate`. -/
structure AccountDecoder where
  decodeFn : List Nat → Except String DecodedAccount
  validateFn : List Nat → Bool

/-- View a `ManualAccountDecoder` through the `AccountDecoder`
interface. -/
def ManualAccountDecoder.toAccountDecoder (m : ManualAccountDecoder) : AccountDecoder :=
  ⟨m.decode, m.validate⟩

/-- View a `BorshAccountDecoder` through the `AccountDecoder`
interface. -/
def BorshAccountDecoder.toAccountDecoder (b : BorshAccountDecoder) : AccountDecoder :=
  ⟨b.decode, b.validate⟩

/-- The error thrown by `MultiAccountDecoder.decode` when every decoder
has been tried without success. -/
def noDecoderMatchedMsg : String :=
  "No decoder could successfully decode the account data"

/-- The loop body of `MultiAccountDecoder.decode`: for each decoder in
order, `try { if (decoder.validate(data)) return decoder.decode(data); }
catch { continue; }`; when the list is exhausted, throw. -/
def multiDecodeGo (data : List Nat) : List AccountDecoder → Except String DecodedAccount
  | [] => .error noDecoderMatchedMsg
  | d :: rest =>
    if d.validateFn data then
      match d.decodeFn data with
      | .ok v => .ok v
      | .error _ => multiDecodeGo data rest
    else multiDecodeGo data rest

/-- `MultiAccountDecoder`: holds an ordered list of decoders. -/
structure MultiAccountDecoder where
  decoders : List AccountDecoder

/-- `MultiAccountDecoder.decode`: return the result of the first
decoder in the list that validates (and whose decode does not throw);
throw `noDecoderMatchedMsg` when none matches. -/
def MultiAccountDecoder.decode (m : MultiAccountDecoder) (data : List Nat) :
    Except String DecodedAccount :=
  multiDecodeGo data m.decoders

/-- `MultiAccountDecoder.validate`:
`this.decoders.some((decoder) => decoder.validate(data))`. -/
def MultiAccountDecoder.validate (m : MultiAccountDecoder) (data : List Nat) : Bool :=
  m.decoders.any fun d => d.validateFn data

/-- Every decoder in the list failing to validate makes the composite
loop fall through to the final throw. -/
theorem multiDecodeGo_none (data : List Nat) :
    ∀ ds : List AccountDecoder, (∀ d ∈ ds, d.validateFn data = false) →
      multiDecodeGo data ds = .error noDecoderMatchedMsg := by
  intro ds
  induction ds with
  | nil => intro _; rfl
  | cons d rest ih =>
    intro hall
    rw [multiDecodeGo, hall d (List.mem_cons_self d rest)]
    simp only [Bool.false_eq_true, if_false]
    exact ih fun d' hd' => hall d' (List.mem_cons_of_mem d hd')

/-- The composite loop stops at the first validating decoder whose
decode does not throw and returns its result. -/
theorem multiDecodeGo_first (data : List Nat) :
    ∀ (pre : List AccountDecoder) (d : AccountDecoder) (post : List AccountDecoder),
      (∀ d' ∈ pre, d'.validateFn data = false) →
      d.validateFn data = true →
      (∀ e, d.decodeFn data ≠ .error e) →
      multiDecodeGo data (pre ++ d :: post) = d.decodeFn data := by
  intro pre
  induction pre with
  | nil =>
    intro d post _ hd hok
    rw [List.nil_append, multiDecodeGo, hd]
    simp only [if_true]
    cases hres : d.decodeFn data with
    | ok v => rfl
    | error e => exact absurd hres (hok e)
  | cons p ps ih =>
    intro d post hpre hd hok
    rw [List.cons_append, multiDecodeGo, hpre p (List.mem_cons_self p ps)]
    simp only [Bool.false_eq_true, if_false]
    exact ih d post (fun d' hd' => hpre d' (List.mem_cons_of_mem p hd')) hd hok

/-- C6: the composite decoder returns the decode result of the first
decoder in the ordered list whose `validate` succeeds — given the
decoder contract that a validating decoder's `decode` does not throw —
and throws `noDecoderMatchedMsg` when no decoder validates.  The second
conjunct is stated for an arbitrary decomposition `pre ++ d :: post` of
the decoder list in which every decoder before `d` fails to validate
and `d` validates. -/
theorem multiDecoder_first_match (m : MultiAccountDecoder) (data : List Nat) :
    ((∀ d ∈ m.decoders, d.validateFn data = false) →
      m.decode data = .error noDecoderMatchedMsg) ∧
    (∀ pre d post, m.decoders = pre ++ d :: post →
      (∀ d' ∈ pre, d'.validateFn data = false) →
      d.validateFn data = true →
      (∀ e, d.decodeFn data ≠ .error e) →
      m.decode data = d.decodeFn data) := by
  constructor
  · intro hall
    rw [MultiAccountDecoder.decode]
    exact multiDecodeGo_none data m.decoders hall
  · intro pre d post hsplit hpre hd hok
    rw [MultiAccountDecoder.decode, hsplit]
    exact multiDecodeGo_first data pre d post hpre hd hok

/-- A decoder whose `validate` rejects everything and a decoder that
accepts everything, used to witness the composite-decoder claims at a
concrete input. -/
def alwaysRejectDecoder : AccountDecoder :=
  ⟨fun _ => .ok ⟨"A", []⟩, fun _ => false⟩

def alwaysAcceptDecoder : AccountDecoder :=
  ⟨fun _ => .ok ⟨"B", []⟩, fun _ => true⟩

/-- Witness for C6: with decoders `[A, B]` where only `B` validates the
buffer `[0, 1, 2]`, the composite decoder returns `B`'s decode result,
never `A`'s. -/
theorem multiDecoder_first_match_witness :
    (MultiAccountDecoder.mk [alwaysRejectDecoder, alwaysAcceptDecoder]).decode [0, 1, 2] =
      .ok ⟨"B", []⟩ ∧
    (MultiAccountDecoder.mk [alwaysRejectDecoder, alwaysAcceptDecoder]).decode [0, 1, 2] ≠
      .ok ⟨"A", []⟩ := by
  have h := (multiDecoder_first_match
    (MultiAccountDecoder.mk [alwaysRejectDecoder, alwaysAcceptDecoder]) [0, 1, 2]).2
    [alwaysRejectDecoder] alwaysAcceptDecoder [] rfl
    (by intro d' hd'
        rw [List.mem_singleton] at hd'
        subst hd'
        rfl)
    rfl
    (by intro e he
        simp [alwaysAcceptDecoder] at he)
  rw [h]
  constructor
  · rfl
  · simp [alwaysAcceptDecoder]

/-- `multiDecodeGo` succeeds exactly when some decoder validates, given
that each decoder's `validate` agrees with its `decode` succeeding. -/
theorem multiDecodeGo_ok_iff (data : List Nat) :
    ∀ ds : List AccountDecoder,
      (∀ d ∈ ds, d.validateFn data = true ↔ ∃ v, d.decodeFn data = .ok v) →
      ((∃ v, multiDecodeGo data ds = .ok v) ↔ ∃ d ∈ ds, d.validateFn data = true) := by
  intro ds
  induction ds with
  | nil =>
    intro _
    simp [multiDecodeGo]
  | cons d rest ih =>
    intro hagree
    have ihr := ih fun d' hd' => hagree d' (List.mem_cons_of_mem d hd')
    by_cases hv : d.validateFn data = true
    · obtain ⟨v, hok⟩ := (hagree d (List.mem_cons_self d rest)).mp hv
      rw [multiDecodeGo, hv]
      simp only [if_true, hok]
      constructor
      · intro _
        exact ⟨d, List.mem_cons_self d rest, hv⟩
      · intro _
        exact ⟨v, rfl⟩
    · have hv' : d.validateFn data = false := by
        cases h : d.validateFn data with
        | true => exact absurd h hv
        | false => rfl
      rw [multiDecodeGo, hv']
      simp only [Bool.false_eq_true, if_false]
      rw [ihr]
      constructor
      · intro ⟨d', hd', hval⟩
        exact ⟨d', List.mem_cons_of_mem d hd', hval⟩
      · intro ⟨d', hd', hval⟩
        rcases List.mem_cons.mp hd' with h | h
        · subst h; exact absurd hval hv
        · exact ⟨d', h, hval⟩

/-- C8: every `validate` in the decoder framework is total (it is a
boolean function, never a thrown error) and returns `true` exactly when
the corresponding `decode` would succeed: unconditionally for
`ManualAccountDecoder`; for `BorshAccountDecoder` under the Anchor
coder's property that decoding a buffer shorter than the 8-byte
discriminator always fails; and for `MultiAccountDecoder` whenever its
component decoders satisfy the same contract. -/
theorem validate_iff_decode_ok :
    (∀ (m : ManualAccountDecoder) (data : List Nat),
      m.validate data = true ↔ ∃ v, m.decode data = .ok v) ∧
    (∀ (b : BorshAccountDecoder) (data : List Nat),
      (∀ buf : List Nat, buf.length < 8 → ∀ v, b.coderDecode buf ≠ .ok v) →
      (b.validate data = true ↔ ∃ v, b.decode data = .ok v)) ∧
    (∀ (mu : MultiAccountDecoder) (data : List Nat),
      (∀ d ∈ mu.decoders, d.validateFn data = true ↔ ∃ v, d.decodeFn data = .ok v) →
      (mu.validate data = true ↔ ∃ v, mu.decode data = .ok v)) := by
  refine ⟨?_, ?_, ?_⟩
  · intro m data
    rw [ManualAccountDecoder.validate]
    cases h : m.decode data with
    | ok v => simp [h]
    | error e => simp [h]
  · intro b data hshort
    rw [BorshAccountDecoder.validate]
    by_cases hlen : data.length < 8
    · rw [if_pos hlen]
      constructor
      · intro hfalse; cases hfalse
      · intro ⟨v, hv⟩
        rw [BorshAccountDecoder.decode] at hv
        cases hc : b.coderDecode data with
        | ok w => exact absurd hc (hshort data hlen w)
        | error e => rw [hc] at hv; cases hv
    · rw [if_neg hlen]
      cases h : b.decode data with
      | ok v => simp [h]
      | error e => simp [h]
  · intro mu data hagree
    rw [MultiAccountDecoder.validate, MultiAccountDecoder.decode]
    rw [List.any_eq_true]
    rw [← multiDecodeGo_ok_iff data mu.decoders hagree]

/-- A concrete manual decoder that fails on buffers shorter than 8
bytes and succeeds otherwise, used to witness the decoder contract. -/
def lengthGuardFn (data : List Nat) : Except String (List (String × String)) :=
  if data.length < 8 then .error "buffer too short" else .ok [("len", toString data.length)]

def witnessManualDecoder : ManualAccountDecoder :=
  ⟨"Guarded", lengthGuardFn⟩

def witnessBorshDecoder : BorshAccountDecoder :=
  ⟨"Guarded", lengthGuardFn⟩

/-- Witness for C8: the contract holds at concrete decoders and
buffers; in particular `validate` is `false` on a buffer shorter than
the declared layout and `true` on one that decodes. -/
theorem validate_iff_decode_ok_witness :
    (witnessManualDecoder.validate [0, 1] = true ↔
      ∃ v, witnessManualDecoder.decode [0, 1] = .ok v) ∧
    (witnessBorshDecoder.validate [0, 1] = true ↔
      ∃ v, witnessBorshDecoder.decode [0, 1] = .ok v) ∧
    ((MultiAccountDecoder.mk [witnessManualDecoder.toAccountDecoder]).validate
        [0, 1, 2, 3, 4, 5, 6, 7] = true ↔
      ∃ v, (MultiAccountDecoder.mk [witnessManualDecoder.toAccountDecoder]).decode
        [0, 1, 2, 3, 4, 5, 6, 7] = .ok v) ∧
    witnessManualDecoder.validate [0, 1] = false ∧
    witnessManualDecoder.validate [0, 1, 2, 3, 4, 5, 6, 7] = true := by
  refine ⟨?_, ?_, ?_, ?_, ?_⟩
  · exact validate_iff_decode_ok.1 witnessManualDecoder [0, 1]
  · exact validate_iff_decode_ok.2.1 witnessBorshDecoder [0, 1]
      (by intro buf hlen v hv
          simp [witnessBorshDecoder, lengthGuardFn, hlen] at hv)
  · refine validate_iff_decode_ok.2.2
      (MultiAccountDecoder.mk [witnessManualDecoder.toAccountDecoder])
      [0, 1, 2, 3, 4, 5, 6, 7] ?_
    intro d hd
    rw [show (MultiAccountDecoder.mk [witnessManualDecoder.toAccountDecoder]).decoders =
      [witnessManualDecoder.toAccountDecoder] from rfl] at hd
    rw [List.mem_singleton] at hd
    subst hd
    exact validate_iff_decode_ok.1 witnessManualDecoder [0, 1, 2, 3, 4, 5, 6, 7]
  · rfl
  · rfl

/-! ## Unified market schema and `MarketNormalizer`
(`src/normalize/types.ts`, `src/normalize/marketNormalizer.ts`)

JavaScript's `x || d` defaulting treats the empty string and the number
`0` as falsy; the `jsOr…` helpers model this.  Zod validation failure
(`.parse` throwing) is modelled as `Except.error`. -/

/-- JavaScript `s || d` for an optional string field: `undefined` and
`""` are falsy. -/
def jsOrStr (o : Option String) (d : String) : String :=
  match o with
  | none => d
  | some s => if s = "" then d else s

/-- JavaScript `s || d` for a present string value. -/
def jsStr (s : String) (d : String) : String :=
  if s = "" then d else s

/-- JavaScript `n || d` for an optional integer field: `undefined` and
`0` are falsy. -/
def jsOrInt (o : Option Int) (d : Int) : Int :=
  match o with
  | none => d
  | some n => if n = 0 then d else n

/-- JavaScript `q || d` for an optional numeric field: `undefined` and
`0` are falsy. -/
def jsOrQ (o : Option ℚ) (d : ℚ) : ℚ :=
  match o with
  | none => d
  | some q => if q = 0 then d else q

/-- `MarketStatus`: the five-value status enum of the unified schema. -/
inductive MarketStatus where
  | active
  | settled
  | expired
  | paused
  | cancelled
deriving DecidableEq, Repr

/-- A value of the free-form `metadata` map. -/
inductive MetaValue where
  | str (s : String)
  | num (q : ℚ)
  | int (n : Int)
deriving DecidableEq, Repr

/-- `Outcome` of the unified schema. -/
structure Outcome where
  id : String
  name : String
  description : Option String
  probability : ℚ
  volume : String
  liquidity : String
  lastPrice : Option ℚ
deriving DecidableEq, Repr

/-- The partial outcome passed to `MarketNormalizer.normalizeOutcome`. -/
structure PartialOutcome where
  id : Option String
  name : Option String
  description : Option String
  probability : Option ℚ
  volume : Option String
  liquidity : Option String
  lastPrice : Option ℚ
deriving DecidableEq, Repr

/-- `MarketNormalizer.normalizeOutcome`: fill defaults (JavaScript `||`)
then clamp the probability into `[0, 1]` by the two sequential `if`
statements. -/
def normalizeOutcome (data : PartialOutcome) : Outcome :=
  let p0 := jsOrQ data.probability 0
  let p1 := if p0 < 0 then 0 else p0
  let p2 := if 1 < p1 then 1 else p1
  { id := jsOrStr data.id ""
    name := jsOrStr data.name "Unknown Outcome"
    description := data.description
    probability := p2
    volume := jsOrStr data.volume "0"
    liquidity := jsOrStr data.liquidity "0"
    lastPrice := data.lastPrice }

/-- `Market` of the unified schema. -/
structure Market where
  id : String
  programId : String
  address : String
  name : String
  description : String
  category : Option String
  status : MarketStatus
  outcomes : List Outcome
  creator : String
  resolver : Option String
  resolutionSource : Option String
  createdAt : Int
  expiresAt : Option Int
  resolvedAt : Option Int
  winningOutcome : Option String
  totalVolume : String
  totalLiquidity : String
  minStake : Option String
  maxStake : Option String
  fee : Option ℚ
  metadata : List (String × MetaValue)
deriving DecidableEq, Repr

/-- The partial market passed to `MarketNormalizer.normalizeMarket`. -/
structure PartialMarket where
  id : Option String
  programId : Option String
  address : Option String
  name : Option String
  description : Option String
  category : Option String
  status : Option MarketStatus
  outcomes : Option (List Outcome)
  creator : Option String
  resolver : Option String
  resolutionSource : Option String
  createdAt : Option Int
  expiresAt : Option Int
  resolvedAt : Option Int
  winningOutcome : Option String
  totalVolume : Option String
  totalLiquidity : Option String
  minStake : Option String
  maxStake : Option String
  fee : Option ℚ
  metadata : Option (List (String × MetaValue))
deriving Repr

/-- `MarketNormalizer.normalizeMarket`: build the full `Market` with
JavaScript `||` defaults (`name` defaulting to `"Unknown Market"`,
`status` to `active`, `createdAt` to `Date.now()`, passed here as
`now`), then validate with the zod schema requiring `id`, `programId`,
`address` and `name` to be strings of length at least 1 (`description`,
`outcomes` and `creator` are checked only for their type, and `status`
for enum membership, all of which hold by construction here); a zod
failure is a thrown error. -/
def normalizeMarket (data : PartialMarket) (now : Int) : Except String Market :=
  let marketData : Market := {
    id := jsOrStr data.id ""
    programId := jsOrStr data.programId ""
    address := jsOrStr data.address ""
    name := jsOrStr data.name "Unknown Market"
    description := jsOrStr data.description ""
    category := data.category
    status := data.status.getD .active
    outcomes := data.outcomes.getD []
    creator := jsOrStr data.creator ""
    resolver := data.resolver
    resolutionSource := data.resolutionSource
    createdAt := jsOrInt data.createdAt now
    expiresAt := data.expiresAt
    resolvedAt := data.resolvedAt
    winningOutcome := data.winningOutcome
    totalVolume := jsOrStr data.totalVolume "0"
    totalLiquidity := jsOrStr data.totalLiquidity "0"
    minStake := data.minStake
    maxStake := data.maxStake
    fee := data.fee
    metadata := data.metadata.getD [] }
  if marketData.id.length < 1 ∨ marketData.programId.length < 1 ∨
      marketData.address.length < 1 ∨ marketData.name.length < 1 then
    .error "zod validation failed: String must contain at least 1 character(s)"
  else
    .ok marketData

theorem jsOrStr_ne_empty (o : Option String) (d : String)
    (h : jsOrStr o d = "") : o = none ∨ o = some "" := by
  rcases o with _ | s
  · exact Or.inl rfl
  · rw [jsOrStr] at h
    by_cases hs : s = ""
    · exact Or.inr (by rw [hs])
    · rw [if_neg hs] at h
      exact absurd h hs

theorem one_le_length_of_ne_empty (s : String) (h : s ≠ "") : 1 ≤ s.length := by
  rcases s with ⟨data⟩
  cases data with
  | nil => exact absurd rfl h
  | cons c cs =>
    show 1 ≤ (String.mk (c :: cs)).length
    simp [String.length]

/-- `normalizeMarket` succeeds exactly when the four zod `min(1)` string
checks pass. -/
theorem normalizeMarket_ok_iff (data : PartialMarket) (now : Int) :
    (∃ m, normalizeMarket data now = .ok m) ↔
      (1 ≤ (jsOrStr data.id "").length ∧ 1 ≤ (jsOrStr data.programId "").length ∧
       1 ≤ (jsOrStr data.address "").length ∧
       1 ≤ (jsOrStr data.name "Unknown Market").length) := by
  rw [normalizeMarket]
  by_cases hc : (jsOrStr data.id "").length < 1 ∨ (jsOrStr data.programId "").length < 1 ∨
      (jsOrStr data.address "").length < 1 ∨
      (jsOrStr data.name "Unknown Market").length < 1
  · rw [if_pos hc]
    constructor
    · intro ⟨m, hm⟩; cases hm
    · intro ⟨h1, h2, h3, h4⟩
      exfalso
      rcases hc with h | h | h | h <;> omega
  · rw [if_neg hc]
    push_neg at hc
    constructor
    · intro _; exact hc
    · intro _; exact ⟨_, rfl⟩

/-- C10: `MarketNormalizer.normalizeMarket` throws (zod validation
fails) whenever the supplied partial market has an empty or missing
`id`, `programId` or `address`; consequently every `Market` it returns
has non-empty `id`, `programId` and `address`.  A missing `name` never
causes this failure, because `name` is defaulted to `"Unknown Market"`
before validation: the success of `normalizeMarket` does not depend on
the `name` field at all. -/
theorem normalizeMarket_requires_identifiers (data : PartialMarket) (now : Int) :
    ((data.id = none ∨ data.id = some "") →
      ∃ e, normalizeMarket data now = .error e) ∧
    ((data.programId = none ∨ data.programId = some "") →
      ∃ e, normalizeMarket data now = .error e) ∧
    ((data.address = none ∨ data.address = some "") →
      ∃ e, normalizeMarket data now = .error e) ∧
    (∀ m, normalizeMarket data now = .ok m →
      m.id ≠ "" ∧ m.programId ≠ "" ∧ m.address ≠ "") ∧
    ((∃ m, normalizeMarket { data with name := none } now = .ok m) ↔
      (∃ m, normalizeMarket data now = .ok m)) := by
  have hempty : ∀ o : Option String, (o = none ∨ o = some "") → jsOrStr o "" = "" := by
    intro o h
    rcases h with h | h <;> rw [h] <;> rfl
  have hname : ∀ nm : Option String, jsOrStr nm "Unknown Market" ≠ "" := by
    intro nm
    rcases nm with _ | s
    · decide
    · rw [jsOrStr]
      by_cases hs : s = ""
      · rw [if_pos hs]; decide
      · rw [if_neg hs]; exact hs
  refine ⟨?_, ?_, ?_, ?_, ?_⟩
  · intro h
    refine ⟨"zod validation failed: String must contain at least 1 character(s)", ?_⟩
    rw [normalizeMarket]
    rw [if_pos (Or.inl (by
      show (jsOrStr data.id "").length < 1
      rw [hempty data.id h]
      decide))]
  · intro h
    refine ⟨"zod validation failed: String must contain at least 1 character(s)", ?_⟩
    rw [normalizeMarket]
    rw [if_pos (Or.inr (Or.inl (by
      show (jsOrStr data.programId "").length < 1
      rw [hempty data.programId h]
      decide)))]
  · intro h
    refine ⟨"zod validation failed: String must contain at least 1 character(s)", ?_⟩
    rw [normalizeMarket]
    rw [if_pos (Or.inr (Or.inr (Or.inl (by
      show (jsOrStr data.address "").length < 1
      rw [hempty data.address h]
      decide))))]
  · intro m hm
    rw [normalizeMarket] at hm
    by_cases hc : (jsOrStr data.id "").length < 1 ∨ (jsOrStr data.programId "").length < 1 ∨
        (jsOrStr data.address "").length < 1 ∨
        (jsOrStr data.name "Unknown Market").length < 1
    · rw [if_pos hc] at hm; cases hm
    · rw [if_neg hc] at hm
      push_neg at hc
      obtain ⟨c1, c2, c3, _⟩ := hc
      injection hm with hm'
      subst hm'
      refine ⟨?_, ?_, ?_⟩
      · intro h
        have h' : jsOrStr data.id "" = "" := h
        rw [h'] at c1; simp at c1
      · intro h
        have h' : jsOrStr data.programId "" = "" := h
        rw [h'] at c2; simp at c2
      · intro h
        have h' : jsOrStr data.address "" = "" := h
        rw [h'] at c3; simp at c3
  · rw [normalizeMarket_ok_iff, normalizeMarket_ok_iff]
    constructor
    · intro ⟨h1, h2, h3, _⟩
      exact ⟨h1, h2, h3, one_le_length_of_ne_empty _ (hname data.name)⟩
    · intro ⟨h1, h2, h3, _⟩
      exact ⟨h1, h2, h3, one_le_length_of_ne_empty _ (hname none)⟩

/-- The all-`none` partial market, used to build concrete inputs. -/
def emptyPartialMarket : PartialMarket :=
  { id := none, programId := none, address := none, name := none,
    description := none, category := none, status := none, outcomes := none,
    creator := none, resolver := none, resolutionSource := none,
    createdAt := none, expiresAt := none, resolvedAt := none,
    winningOutcome := none, totalVolume := none, totalLiquidity := none,
    minStake := none, maxStake := none, fee := none, metadata := none }

def witnessPartialMarket : PartialMarket :=
  { emptyPartialMarket with
    id := some "mkt-1"
    programId := some "prog-1"
    address := some "addr-1" }

def witnessPartialNoId : PartialMarket :=
  { witnessPartialMarket with id := none }

/-- Witness for C10: a concrete partial market with a missing `id`
makes `normalizeMarket` throw, and at a concrete partial market with
non-empty identifiers, removing the `name` does not change whether
`normalizeMarket` succeeds. -/
theorem normalizeMarket_requires_identifiers_witness :
    (∃ e, normalizeMarket witnessPartialNoId 5 = .error e) ∧
    ((∃ m, normalizeMarket { witnessPartialMarket with name := none } 5 = .ok m) ↔
      (∃ m, normalizeMarket witnessPartialMarket 5 = .ok m)) :=
  ⟨(normalizeMarket_requires_identifiers witnessPartialNoId 5).1 (Or.inl rfl),
   (normalizeMarket_requires_identifiers witnessPartialMarket 5).2.2.2.2⟩

/-! ## Switchboard adapter (`src/programs/switchboard/adapter.ts`)

Only the decoded fields that `normalize` and `calculateConfidence`
read are modelled.  The decoder stringifies 64-bit integers
(`expiration.toString()` etc.) and `normalize` parses them back with
`parseInt`; the round trip is the identity on the integer value, so
the fields are modelled with their integer values directly.  `f64`
fields (`result`, `stdDeviation`, `varianceThreshold`) are modelled as
`ℚ`.  `Date.now()` is passed in as `nowMs`. -/

/-- `Math.max` on numbers (NaN aside). -/
def jsMax (a b : ℚ) : ℚ := if a ≤ b then b else a

/-- `Math.min` on numbers (NaN aside). -/
def jsMin (a b : ℚ) : ℚ := if a ≤ b then a else b

/-- `Math.max(0, Math.min(1, x))`. -/
def clamp01 (x : ℚ) : ℚ := jsMax 0 (jsMin 1 x)

/-- A Switchboard aggregator round (`latestConfirmedRound`). -/
structure SwitchboardRound where
  numSuccess : Nat
  numError : Nat
  roundOpenTimestamp : Int
  result : ℚ
  stdDeviation : ℚ
deriving DecidableEq, Repr

/-- The decoded Switchboard feed fields read by `normalize`. -/
structure SwitchboardFeed where
  name : String
  metadata : String
  authority : String
  queueAddress : String
  minOracleResults : Nat
  varianceThreshold : ℚ
  expiration : Int
  consecutiveFailureCount : Nat
  isLocked : Bool
  latestConfirmedRound : SwitchboardRound
deriving DecidableEq, Repr

/-- `ProgramAccountData` (without the raw bytes, which `normalize` does
not read). -/
structure ProgramAccountData where
  programId : String
  address : String
  slot : Nat
deriving DecidableEq, Repr

/-- `SwitchboardAdapter.calculateConfidence`: success ratio
`numSuccess / (numSuccess + numError || 1)` weighted `0.6`, plus the
standard-deviation penalty `Math.max(0, 1 - stdDeviation)` weighted
`0.4`, clamped to `[0, 1]`. -/
def calculateConfidence (feed : SwitchboardFeed) : ℚ :=
  let round := feed.latestConfirmedRound
  let denom : ℚ := if round.numSuccess + round.numError = 0 then 1
    else ((round.numSuccess + round.numError : Nat) : ℚ)
  let successRate := (round.numSuccess : ℚ) / denom
  let stdPenalty := jsMax 0 (1 - round.stdDeviation)
  clamp01 (successRate * (6/10) + stdPenalty * (4/10))

/-- The status computation inside `SwitchboardAdapter.normalize`:
start from `active`; set `paused` if `isLocked`; then (overwriting the
previous value) set `expired` if the expiration timestamp is positive
and earlier than `Date.now() / 1000`. -/
def switchboardStatus (isLocked : Bool) (expiration : Int) (nowSec : ℚ) : MarketStatus :=
  let s1 := if isLocked then MarketStatus.paused else MarketStatus.active
  if 0 < expiration ∧ (expiration : ℚ) < nowSec then MarketStatus.expired else s1

/-- `SwitchboardAdapter.normalize`: clamp the oracle result into a
probability, build the Yes/No outcomes, compute the status, and hand a
partial market (including the confidence score in `metadata`) to
`MarketNormalizer.normalizeMarket`. -/
def switchboardNormalize (feed : SwitchboardFeed) (accountData : ProgramAccountData)
    (nowMs : Int) : Except String Market :=
  let probability := clamp01 feed.latestConfirmedRound.result
  let outcomes : List Outcome := [
    normalizeOutcome
      { id := some (accountData.address ++ "-yes"), name := some "Yes",
        description := some "Outcome is true", probability := some probability,
        volume := some "0", liquidity := some "0", lastPrice := some probability },
    normalizeOutcome
      { id := some (accountData.address ++ "-no"), name := some "No",
        description := some "Outcome is false", probability := some (1 - probability),
        volume := some "0", liquidity := some "0", lastPrice := some (1 - probability) }]
  let status := switchboardStatus feed.isLocked feed.expiration ((nowMs : ℚ) / 1000)
  normalizeMarket
    { id := some accountData.address
      programId := some accountData.programId
      address := some accountData.address
      name := some (jsStr feed.name "Switchboard Prediction Feed")
      description := some (jsStr feed.metadata "Oracle-based prediction market")
      category := some "oracle"
      status := some status
      outcomes := some outcomes
      creator := some feed.authority
      resolver := some feed.authority
      resolutionSource := some accountData.address
      createdAt := some nowMs
      expiresAt := if 0 < feed.expiration then some (feed.expiration * 1000) else none
      resolvedAt := none
      winningOutcome := none
      totalVolume := some "0"
      totalLiquidity := some "0"
      minStake := none
      maxStake := none
      fee := none
      metadata := some [
        ("oracleType", MetaValue.str "switchboard"),
        ("queueAddress", MetaValue.str feed.queueAddress),
        ("minOracleResults", MetaValue.int feed.minOracleResults),
        ("varianceThreshold", MetaValue.num feed.varianceThreshold),
        ("latestResult", MetaValue.num feed.latestConfirmedRound.result),
        ("stdDeviation", MetaValue.num feed.latestConfirmedRound.stdDeviation),
        ("confidence", MetaValue.num (calculateConfidence feed)),
        ("lastUpdate", MetaValue.int (feed.latestConfirmedRound.roundOpenTimestamp * 1000)),
        ("consecutiveFailures", MetaValue.int feed.consecutiveFailureCount)] }
    nowMs

/-- Successful `switchboardNormalize`: with non-empty address and
program id the zod validation passes, and the returned market's status
and `"confidence"` metadata entry are the computed ones. -/
theorem switchboardNormalize_fields (feed : SwitchboardFeed)
    (accountData : ProgramAccountData) (nowMs : Int)
    (haddr : accountData.address ≠ "") (hprog : accountData.programId ≠ "") :
    ∃ m, switchboardNormalize feed accountData nowMs = .ok m ∧
      m.status = switchboardStatus feed.isLocked feed.expiration ((nowMs : ℚ) / 1000) ∧
      m.metadata.lookup "confidence" = some (MetaValue.num (calculateConfidence feed)) := by
  rw [switchboardNormalize, normalizeMarket]
  rw [if_neg ?hc]
  case hc =>
    push_neg
    refine ⟨?_, ?_, ?_, ?_⟩
    · show 1 ≤ (jsOrStr (some accountData.address) "").length
      rw [jsOrStr, if_neg haddr]
      exact one_le_length_of_ne_empty _ haddr
    · show 1 ≤ (jsOrStr (some accountData.programId) "").length
      rw [jsOrStr, if_neg hprog]
      exact one_le_length_of_ne_empty _ hprog
    · show 1 ≤ (jsOrStr (some accountData.address) "").length
      rw [jsOrStr, if_neg haddr]
      exact one_le_length_of_ne_empty _ haddr
    · show 1 ≤ (jsOrStr (some (jsStr feed.name "Switchboard Prediction Feed"))
        "Unknown Market").length
      rw [jsStr]
      by_cases hn : feed.name = ""
      · rw [if_pos hn]
        show 1 ≤ (jsOrStr (some "Switchboard Prediction Feed") "Unknown Market").length
        decide
      · rw [if_neg hn]
        show 1 ≤ (jsOrStr (some feed.name) "Unknown Market").length
        rw [jsOrStr, if_neg hn]
        exact one_le_length_of_ne_empty _ hn
  exact ⟨_, rfl, rfl, rfl⟩

/-- The status rule as C1 states it: `paused` takes priority over
`expired` whenever `isLocked` is set. -/
def switchboardStatusClaim (isLocked : Bool) (expiration : Int) (nowSec : ℚ) : MarketStatus :=
  if isLocked then MarketStatus.paused
  else if 0 < expiration ∧ (expiration : ℚ) < nowSec then MarketStatus.expired
  else MarketStatus.active

/-- A locked feed whose expiration (1 s) is positive and already past
at `Date.now() = 2000` ms. -/
def lockedExpiredFeed : SwitchboardFeed :=
  { name := "Feed", metadata := "", authority := "auth", queueAddress := "queue",
    minOracleResults := 1, varianceThreshold := 0, expiration := 1,
    consecutiveFailureCount := 0, isLocked := true,
    latestConfirmedRound :=
      { numSuccess := 3, numError := 1, roundOpenTimestamp := 1,
        result := 7/10, stdDeviation := 1/2 } }

def switchboardAccount : ProgramAccountData :=
  { programId := "SW1TCHw1TCH7qNvdvZzTA1jjCbqRX7w9QHfxhWUq6xfU",
    address := "feed-address", slot := 0 }

/-- Counterexample to C1: on a locked feed whose expiration is positive
and past, `normalize` returns status `expired`, not the `paused` that
the claim requires (`isLocked` does not take priority: the expiration
check runs after the lock check and overwrites its result). -/
theorem switchboard_locked_expired_counterexample :
    (∃ m, switchboardNormalize lockedExpiredFeed switchboardAccount 2000 = .ok m ∧
      m.status = MarketStatus.expired) ∧
    switchboardStatusClaim lockedExpiredFeed.isLocked lockedExpiredFeed.expiration
      ((2000 : ℚ) / 1000) = MarketStatus.paused ∧
    MarketStatus.expired ≠ MarketStatus.paused := by
  obtain ⟨m, hm, hstat, _⟩ := switchboardNormalize_fields lockedExpiredFeed
    switchboardAccount 2000 (by decide) (by decide)
  refine ⟨⟨m, hm, ?_⟩, ?_, ?_⟩
  · rw [hstat, switchboardStatus]
    rw [if_pos ?hexp]
    case hexp =>
      constructor
      · show (0 : Int) < lockedExpiredFeed.expiration
        decide
      · show ((lockedExpiredFeed.expiration : Int) : ℚ) < (2000 : ℚ) / 1000
        norm_num [lockedExpiredFeed]
  · rfl
  · intro h
    exact MarketStatus.noConfusion h

/-- C1 (amended): for every decoded Switchboard feed, `normalize`
returns a market whose status is `expired` whenever the expiration
timestamp is positive and earlier than `Date.now()/1000` — even when
`isLocked` is set — `paused` when `isLocked` is set and the expiration
condition does not hold, and `active` otherwise. -/
theorem switchboard_status_amended (feed : SwitchboardFeed)
    (accountData : ProgramAccountData) (nowMs : Int)
    (haddr : accountData.address ≠ "") (hprog : accountData.programId ≠ "") :
    ∃ m, switchboardNormalize feed accountData nowMs = .ok m ∧
      m.status =
        (if 0 < feed.expiration ∧ (feed.expiration : ℚ) < (nowMs : ℚ) / 1000 then
          MarketStatus.expired
        else if feed.isLocked then MarketStatus.paused
        else MarketStatus.active) := by
  obtain ⟨m, hm, hstat, _⟩ :=
    switchboardNormalize_fields feed accountData nowMs haddr hprog
  exact ⟨m, hm, by rw [hstat]; rfl⟩

/-- Witness for C1 (amended): an unlocked feed with a past expiration
normalizes to a market with status `expired`. -/
theorem switchboard_status_amended_witness :
    ("feed-address" : String) ≠ "" ∧
    ∃ m, switchboardNormalize { lockedExpiredFeed with isLocked := false }
        switchboardAccount 2000 = .ok m ∧
      m.status =
        (if 0 < ({ lockedExpiredFeed with isLocked := false } : SwitchboardFeed).expiration ∧
            ((({ lockedExpiredFeed with isLocked := false } : SwitchboardFeed).expiration : Int) : ℚ) <
              (2000 : ℚ) / 1000 then
          MarketStatus.expired
        else if ({ lockedExpiredFeed with isLocked := false } : SwitchboardFeed).isLocked then
          MarketStatus.paused
        else MarketStatus.active) :=
  ⟨by decide,
   switchboard_status_amended { lockedExpiredFeed with isLocked := false }
     switchboardAccount 2000 (by decide) (by decide)⟩

/-- The confidence formula exactly as C9 states it: clamp to `[0, 1]`
of `0.6 × r + 0.4 × max(0, 1 − stdDeviation)`, where
`r = numSuccess / (numSuccess + numError)` and the denominator defaults
to `1` when `numSuccess + numError` is zero. -/
def confidenceClaim (feed : SwitchboardFeed) : ℚ :=
  let s := feed.latestConfirmedRound.numSuccess
  let e := feed.latestConfirmedRound.numError
  let r := (s : ℚ) / (if s + e = 0 then 1 else ((s + e : Nat) : ℚ))
  clamp01 ((6/10) * r + (4/10) * jsMax 0 (1 - feed.latestConfirmedRound.stdDeviation))

/-- C9: for every decoded Switchboard feed, the confidence score that
`normalize` stores under the `"confidence"` metadata key equals
`clamp_[0,1](0.6·r + 0.4·max(0, 1 − stdDeviation))` with
`r = numSuccess / (numSuccess + numError)`, denominator defaulting to
`1` when the sum is zero. -/
theorem switchboard_confidence_in_metadata (feed : SwitchboardFeed)
    (accountData : ProgramAccountData) (nowMs : Int)
    (haddr : accountData.address ≠ "") (hprog : accountData.programId ≠ "") :
    ∃ m, switchboardNormalize feed accountData nowMs = .ok m ∧
      m.metadata.lookup "confidence" = some (MetaValue.num (confidenceClaim feed)) := by
  obtain ⟨m, hm, _, hconf⟩ :=
    switchboardNormalize_fields feed accountData nowMs haddr hprog
  refine ⟨m, hm, ?_⟩
  rw [hconf]
  have hval : calculateConfidence feed = confidenceClaim feed := by
    rw [calculateConfidence, confidenceClaim]
    congr 1
    ring
  rw [hval]

/-- Witness for C9: at a concrete feed with 3 successes, 1 error and
standard deviation 1/2, the stored confidence is
`clamp(0.6·(3/4) + 0.4·(1/2)) = 13/20`. -/
theorem switchboard_confidence_in_metadata_witness :
    (∃ m, switchboardNormalize lockedExpiredFeed switchboardAccount 2000 = .ok m ∧
      m.metadata.lookup "confidence" =
        some (MetaValue.num (confidenceClaim lockedExpiredFeed))) ∧
    confidenceClaim lockedExpiredFeed = 13/20 :=
  ⟨switchboard_confidence_in_metadata lockedExpiredFeed switchboardAccount 2000
      (by decide) (by decide),
   by
    rw [confidenceClaim]
    norm_num [lockedExpiredFeed, clamp01, jsMax, jsMin]⟩

/-! ## Hxro adapter (`src/programs/hxro/adapter.ts`)

As for Switchboard, decoded 64-bit integers are stringified by the
decoder and parsed back by `normalize`; they are modelled by their
integer values.  The `odds` field is computed by the decoder
(`totalPool / pool`, or `0` for an empty pool) and carried in the
decoded data. -/

/-- JavaScript `n || d` for a present integer value. -/
def jsInt (n : Int) (d : Int) : Int :=
  if n = 0 then d else n

/-- A decoded Hxro outcome. -/
structure HxroOutcome where
  id : Nat
  name : String
  pool : Nat
  bettors : Nat
  odds : ℚ
deriving DecidableEq, Repr

/-- The decoded Hxro parimutuel market fields read by `normalize`. -/
structure HxroMarket where
  marketAddress : String
  marketName : String
  marketDescription : String
  marketAuthority : String
  oracleAddress : String
  marketStatus : Nat
  outcomes : List HxroOutcome
  totalPool : Nat
  settlementTime : Int
  createdAt : Int
  settledAt : Int
  winningOutcome : Nat
  feePercent : Nat
  minStake : Nat
  maxStake : Nat
deriving DecidableEq, Repr

/-- The status lookup `statusMap[market.marketStatus] || 'active'` with
`{0: active, 1: paused, 2: settled, 3: cancelled}`. -/
def hxroStatusMap (code : Nat) : MarketStatus :=
  if code = 0 then MarketStatus.active
  else if code = 1 then MarketStatus.paused
  else if code = 2 then MarketStatus.settled
  else if code = 3 then MarketStatus.cancelled
  else MarketStatus.active

/-- The probability computed for one Hxro outcome before clamping:
`totalPool > 0 ? pool / totalPool : 1 / outcomes.length`. -/
def hxroRawProbability (pool totalPool n : Nat) : ℚ :=
  if 0 < totalPool then (pool : ℚ) / (totalPool : ℚ) else 1 / (n : ℚ)

/-- `HxroAdapter.normalize`: map the status code, derive each outcome's
probability from the parimutuel pools (clamped to `[0, 1]`) and price
from the fee-adjusted odds, and hand a partial market to
`MarketNormalizer.normalizeMarket`.  The `metadata` odds array of the
source is not needed by any property and is omitted from the modelled
metadata map. -/
def hxroNormalize (market : HxroMarket) (accountData : ProgramAccountData)
    (nowMs : Int) : Except String Market :=
  let status := hxroStatusMap market.marketStatus
  let outcomes : List Outcome := market.outcomes.map fun outcome =>
    let probability := hxroRawProbability outcome.pool market.totalPool market.outcomes.length
    let feeMultiplier : ℚ := 1 - (market.feePercent : ℚ) / 10000
    let impliedOdds := outcome.odds * feeMultiplier
    let price : ℚ := if 0 < impliedOdds then 1 / impliedOdds else 0
    normalizeOutcome
      { id := some (accountData.address ++ "-" ++ toString outcome.id)
        name := some outcome.name
        description := none
        probability := some (clamp01 probability)
        volume := some (toString outcome.pool)
        liquidity := some (toString outcome.pool)
        lastPrice := some price }
  normalizeMarket
    { id := some accountData.address
      programId := some accountData.programId
      address := some accountData.address
      name := some (jsStr market.marketName "Hxro Parimutuel Market")
      description := some (jsStr market.marketDescription "")
      category := some "parimutuel"
      status := some status
      outcomes := some outcomes
      creator := some market.marketAuthority
      resolver := some market.marketAuthority
      resolutionSource := some market.oracleAddress
      createdAt := some (jsInt (market.createdAt * 1000) nowMs)
      expiresAt := if market.settlementTime * 1000 = 0 then none
        else some (market.settlementTime * 1000)
      resolvedAt := if 0 < market.settledAt then some (market.settledAt * 1000) else none
      winningOutcome := if market.winningOutcome ≠ 255 then
        some (accountData.address ++ "-" ++ toString market.winningOutcome) else none
      totalVolume := some (toString market.totalPool)
      totalLiquidity := some (toString market.totalPool)
      minStake := some (toString market.minStake)
      maxStake := some (toString market.maxStake)
      fee := some ((market.feePercent : ℚ) / 100)
      metadata := some [
        ("marketType", MetaValue.str "parimutuel"),
        ("protocol", MetaValue.str "hxro"),
        ("outcomeCount", MetaValue.int market.outcomes.length),
        ("totalBettors",
          MetaValue.int (market.outcomes.foldl (fun sum o => sum + o.bettors) 0))] }
    nowMs

theorem clamp01_nonneg (x : ℚ) : 0 ≤ clamp01 x := by
  rw [clamp01, jsMax]
  split
  · assumption
  · exact le_refl 0

theorem clamp01_le_one (x : ℚ) : clamp01 x ≤ 1 := by
  rw [clamp01, jsMax, jsMin]
  by_cases h1 : (1 : ℚ) ≤ x
  · rw [if_pos h1, if_pos (by norm_num)]
  · rw [if_neg h1]
    split
    · exact le_of_not_le h1
    · exact le_of_lt one_pos

/-- `normalizeOutcome` keeps a probability that is already in `[0, 1]`
unchanged. -/
theorem normalizeOutcome_probability (po : PartialOutcome) (q : ℚ)
    (hq : po.probability = some q) (h0 : 0 ≤ q) (h1 : q ≤ 1) :
    (normalizeOutcome po).probability = q := by
  have hstep : (normalizeOutcome po).probability =
      (if 1 < (if jsOrQ po.probability 0 < 0 then 0 else jsOrQ po.probability 0) then 1
       else if jsOrQ po.probability 0 < 0 then 0 else jsOrQ po.probability 0) := rfl
  have hjs : jsOrQ (some q) 0 = q := by
    show (if q = 0 then 0 else q) = q
    by_cases hz : q = 0
    · rw [if_pos hz, hz]
    · rw [if_neg hz]
  rw [hstep, hq, hjs, if_neg (not_lt.mpr h0), if_neg (not_lt.mpr h1)]

/-- Successful `hxroNormalize`: with non-empty address and program id
the zod validation passes, and the returned market's outcome
probabilities are the clamped parimutuel shares, in pool order. -/
theorem hxroNormalize_fields (market : HxroMarket)
    (accountData : ProgramAccountData) (nowMs : Int)
    (haddr : accountData.address ≠ "") (hprog : accountData.programId ≠ "") :
    ∃ m, hxroNormalize market accountData nowMs = .ok m ∧
      m.outcomes.map Outcome.probability = market.outcomes.map fun o =>
        clamp01 (hxroRawProbability o.pool market.totalPool market.outcomes.length) := by
  rw [hxroNormalize, normalizeMarket]
  rw [if_neg ?hc]
  case hc =>
    push_neg
    refine ⟨?_, ?_, ?_, ?_⟩
    · show 1 ≤ (jsOrStr (some accountData.address) "").length
      rw [jsOrStr, if_neg haddr]
      exact one_le_length_of_ne_empty _ haddr
    · show 1 ≤ (jsOrStr (some accountData.programId) "").length
      rw [jsOrStr, if_neg hprog]
      exact one_le_length_of_ne_empty _ hprog
    · show 1 ≤ (jsOrStr (some accountData.address) "").length
      rw [jsOrStr, if_neg haddr]
      exact one_le_length_of_ne_empty _ haddr
    · show 1 ≤ (jsOrStr (some (jsStr market.marketName "Hxro Parimutuel Market"))
        "Unknown Market").length
      rw [jsStr]
      by_cases hn : market.marketName = ""
      · rw [if_pos hn]
        show 1 ≤ (jsOrStr (some "Hxro Parimutuel Market") "Unknown Market").length
        decide
      · rw [if_neg hn]
        show 1 ≤ (jsOrStr (some market.marketName) "Unknown Market").length
        rw [jsOrStr, if_neg hn]
        exact one_le_length_of_ne_empty _ hn
  refine ⟨_, rfl, ?_⟩
  show ((market.outcomes.map _).map Outcome.probability) = _
  rw [List.map_map]
  refine List.map_congr_left ?_
  intro o _
  exact normalizeOutcome_probability _ _ rfl (clamp01_nonneg _) (clamp01_le_one _)

/-- The probability rule exactly as C4 states it, with no clamping. -/
def hxroProbabilityClaim (pool totalPool n : Nat) : ℚ :=
  if 0 < totalPool then (pool : ℚ) / (totalPool : ℚ) else 1 / (n : ℚ)

/-- A decodable Hxro market whose single outcome pool (200) exceeds the
independently decoded total pool (100). -/
def overfullHxroMarket : HxroMarket :=
  { marketAddress := "hxro-market", marketName := "M", marketDescription := "",
    marketAuthority := "auth", oracleAddress := "oracle", marketStatus := 0,
    outcomes := [{ id := 0, name := "A", pool := 200, bettors := 1, odds := 1/2 }],
    totalPool := 100, settlementTime := 10, createdAt := 5, settledAt := 0,
    winningOutcome := 255, feePercent := 0, minStake := 0, maxStake := 0 }

def hxroAccount : ProgramAccountData :=
  { programId := "HXroKJzRNV3GJxaNS5rCZRUUYFAqqCjYnA9NKCkQ8gJ8",
    address := "hxro-market", slot := 0 }

/-- Counterexample to C4: on a decoded market with outcome pool 200 and
total pool 100, `normalize` assigns probability `1` (the quotient `2`
clamped into `[0, 1]`), not the unclamped `p_i / T = 2` that the claim
requires for every `T > 0`. -/
theorem hxro_probability_counterexample :
    (∃ m, hxroNormalize overfullHxroMarket hxroAccount 7 = .ok m ∧
      m.outcomes.map Outcome.probability = [1]) ∧
    hxroProbabilityClaim 200 100 1 = 2 ∧
    ((1 : ℚ)) ≠ hxroProbabilityClaim 200 100 1 := by
  obtain ⟨m, hm, hprob⟩ :=
    hxroNormalize_fields overfullHxroMarket hxroAccount 7 (by decide) (by decide)
  have hval : hxroProbabilityClaim 200 100 1 = 2 := by
    rw [hxroProbabilityClaim, if_pos (by norm_num)]
    norm_num
  refine ⟨⟨m, hm, ?_⟩, hval, by rw [hval]; norm_num⟩
  rw [hprob]
  show [clamp01 (hxroRawProbability 200 100 1)] = [1]
  rw [hxroRawProbability, if_pos (by norm_num)]
  rw [clamp01, jsMin, if_pos (by norm_num), jsMax, if_pos (by norm_num)]

/-- C4 (amended): for every decoded Hxro parimutuel market with outcome
pools `p_1..p_N` and total pool `T`, `normalize` assigns outcome `i`
the probability `p_i / T` clamped to `[0, 1]` when `T > 0`, and `1/N`
when `T = 0`; the probabilities appear in pool order.  (The clamp is
visible only on inconsistent accounts where an outcome pool exceeds the
decoded total pool; `1/N` is already in `[0, 1]`.) -/
theorem hxro_probabilities_amended (market : HxroMarket)
    (accountData : ProgramAccountData) (nowMs : Int)
    (haddr : accountData.address ≠ "") (hprog : accountData.programId ≠ "") :
    ∃ m, hxroNormalize market accountData nowMs = .ok m ∧
      m.outcomes.map Outcome.probability = market.outcomes.map fun o =>
        clamp01 (if 0 < market.totalPool then (o.pool : ℚ) / (market.totalPool : ℚ)
          else 1 / (market.outcomes.length : ℚ)) := by
  obtain ⟨m, hm, hprob⟩ :=
    hxroNormalize_fields market accountData nowMs haddr hprog
  exact ⟨m, hm, hprob⟩

/-- The pools `[100, 300]` with total `400`, as in C4. -/
def evenHxroMarket : HxroMarket :=
  { overfullHxroMarket with
    outcomes := [{ id := 0, name := "A", pool := 100, bettors := 1, odds := 4 },
                 { id := 1, name := "B", pool := 300, bettors := 1, odds := 4/3 }],
    totalPool := 400 }

/-- The zero-total-pool market with two outcomes, as in C4. -/
def zeroPoolHxroMarket : HxroMarket :=
  { overfullHxroMarket with
    outcomes := [{ id := 0, name := "A", pool := 0, bettors := 0, odds := 0 },
                 { id := 1, name := "B", pool := 0, bettors := 0, odds := 0 }],
    totalPool := 0 }

/-- Witness for C4 (amended): pools `[100, 300]` with total `400` yield
probabilities `[1/4, 3/4]`, and a zero total pool yields `[1/2, 1/2]`
for two outcomes. -/
theorem hxro_probabilities_amended_witness :
    (∃ m, hxroNormalize evenHxroMarket hxroAccount 7 = .ok m ∧
      m.outcomes.map Outcome.probability = [1/4, 3/4]) ∧
    (∃ m, hxroNormalize zeroPoolHxroMarket hxroAccount 7 = .ok m ∧
      m.outcomes.map Outcome.probability = [1/2, 1/2]) := by
  constructor
  · obtain ⟨m, hm, hprob⟩ :=
      hxro_probabilities_amended evenHxroMarket hxroAccount 7 (by decide) (by decide)
    refine ⟨m, hm, ?_⟩
    rw [hprob]
    show [clamp01 (if 0 < (400 : Nat) then ((100 : Nat) : ℚ) / ((400 : Nat) : ℚ)
        else 1 / ((2 : Nat) : ℚ)),
      clamp01 (if 0 < (400 : Nat) then ((300 : Nat) : ℚ) / ((400 : Nat) : ℚ)
        else 1 / ((2 : Nat) : ℚ))] = [1/4, 3/4]
    norm_num [clamp01, jsMax, jsMin]
  · obtain ⟨m, hm, hprob⟩ :=
      hxro_probabilities_amended zeroPoolHxroMarket hxroAccount 7 (by decide) (by decide)
    refine ⟨m, hm, ?_⟩
    rw [hprob]
    show [clamp01 (if 0 < (0 : Nat) then ((0 : Nat) : ℚ) / ((0 : Nat) : ℚ)
        else 1 / ((2 : Nat) : ℚ)),
      clamp01 (if 0 < (0 : Nat) then ((0 : Nat) : ℚ) / ((0 : Nat) : ℚ)
        else 1 / ((2 : Nat) : ℚ))] = [1/2, 1/2]
    norm_num [clamp01, jsMax, jsMin]

/-! ## RPC client (`src/rpc/connection.ts`, `src/utils/retry.ts`)

The client is modelled as a deterministic state machine over a
scripted world: `opRes k` is the outcome of the `k`-th invocation of
the caller's operation (an error value is a thrown exception with that
message), and `probeOk k` is the outcome of the `k`-th liveness probe
(`connection.getSlot()` inside `failover`).  The ghost `trace` records
every operation invocation (with the endpoint of the connection it ran
against), every probe, and every backoff sleep. -/

/-- Decidable equality for `Except`, needed to evaluate runs. -/
instance {ε α : Type} [DecidableEq ε] [DecidableEq α] : DecidableEq (Except ε α) := fun x y =>
  match x, y with
  | .ok a, .ok b =>
    if h : a = b then isTrue (by rw [h]) else isFalse (fun hh => by injection hh; contradiction)
  | .error a, .error b =>
    if h : a = b then isTrue (by rw [h]) else isFalse (fun hh => by injection hh; contradiction)
  | .ok _, .error _ => isFalse (fun hh => by cases hh)
  | .error _, .ok _ => isFalse (fun hh => by cases hh)

/-- `message.toLowerCase()`. -/
def lowerStr (s : String) : String := String.mk (s.data.map Char.toLower)

/-- Substring occurrence on character lists. -/
def charsContain (needle : List Char) : List Char → Bool
  | [] => needle.isEmpty
  | c :: rest => needle.isPrefixOf (c :: rest) || charsContain needle rest

/-- `errorMessage.includes(needle)`. -/
def strContainsSub (hay needle : String) : Bool :=
  charsContain needle.toList hay.toList

/-- `SolanaRpcClient.shouldFailover`: the retryable error class —
the lowercased message mentions a timeout, a network error,
`ECONNREFUSED`, or HTTP 429/503/504. -/
def shouldFailover (msg : String) : Bool :=
  let errorMessage := lowerStr msg
  strContainsSub errorMessage "timeout" ||
  strContainsSub errorMessage "network" ||
  strContainsSub errorMessage "econnrefused" ||
  strContainsSub errorMessage "429" ||
  strContainsSub errorMessage "503" ||
  strContainsSub errorMessage "504"

/-- One entry of the execution trace. -/
inductive TraceEv where
  | op (endpoint : String) (result : Except String Nat)
  | probe (endpoint : String) (ok : Bool)
  | sleep (ms : Nat)
deriving DecidableEq, Repr

/-- The scripted outside world: operation results by invocation index
and probe outcomes by probe index. -/
structure RpcWorld where
  opRes : Nat → Except String Nat
  probeOk : Nat → Bool

/-- The mutable fields of `SolanaRpcClient`: the endpoint list (index 0
primary), the current endpoint index, the endpoint the current
`Connection` object points at, and the failover re-entry guard. -/
structure RpcClientState where
  endpoints : List String
  currentEndpointIndex : Nat
  connection : String
  failoverInProgress : Bool
deriving DecidableEq, Repr

/-- Client state plus world-consumption counters and the ghost trace. -/
structure ExecState where
  client : RpcClientState
  opCount : Nat
  probeCount : Nat
  trace : List TraceEv
deriving DecidableEq, Repr

/-- A freshly constructed client: `endpoints = [http, ...fallbacks]`,
index 0, connection to `endpoints[0]`. -/
def mkInitState (eps : List String) : ExecState :=
  { client := { endpoints := eps, currentEndpointIndex := 0,
                connection := eps.getD 0 "", failoverInProgress := false },
    opCount := 0, probeCount := 0, trace := [] }

/-- Run `operation(this.connection)` once: consume the next scripted
result and record it against the current connection's endpoint. -/
def runOp (w : RpcWorld) (s : ExecState) : ExecState × Except String Nat :=
  ({ s with opCount := s.opCount + 1,
            trace := s.trace ++ [TraceEv.op s.client.connection (w.opRes s.opCount)] },
   w.opRes s.opCount)

/-- `SolanaRpcClient.failover`: return at once when a failover is
already in progress or there is no fallback endpoint; otherwise advance
`currentEndpointIndex` by one with wrap-around, point the connection at
the new endpoint, and probe it with `getSlot()` — a probe failure is
rethrown (the `finally` clearing of the guard is implicit in this
sequential model). -/
def failover (w : RpcWorld) (s : ExecState) : ExecState × Except String Unit :=
  if s.client.failoverInProgress then (s, .ok ())
  else if s.client.endpoints.length ≤ 1 then (s, .ok ())
  else
    let newIdx := (s.client.currentEndpointIndex + 1) % s.client.endpoints.length
    let newEp := s.client.endpoints.getD newIdx ""
    let s1 : ExecState :=
      { s with client := { s.client with currentEndpointIndex := newIdx,
                                         connection := newEp } }
    let ok := w.probeOk s1.probeCount
    let s2 : ExecState :=
      { s1 with probeCount := s1.probeCount + 1,
                trace := s1.trace ++ [TraceEv.probe newEp ok] }
    if ok then (s2, .ok ()) else (s2, .error "getSlot probe failed")

/-- The closure `executeWithRetry` hands to `withRetry`: run the
operation; on a thrown error, fail over when the error is retryable
and retry the operation once against the (possibly new) connection;
rethrow otherwise (also rethrow a probe failure from `failover`). -/
def attemptOnce (w : RpcWorld) (s : ExecState) : ExecState × Except String Nat :=
  let r := runOp w s
  match r.2 with
  | .ok v => (r.1, .ok v)
  | .error msg =>
    if shouldFailover msg then
      match failover w r.1 with
      | (s2, .ok _) => runOp w s2
      | (s2, .error e) => (s2, .error e)
    else (r.1, .error msg)

/-- `RetryOptions` of `src/utils/retry.ts`. -/
structure RetryOptions where
  maxAttempts : Nat
  initialDelayMs : Nat
  maxDelayMs : Nat
  backoffMultiplier : Nat
deriving DecidableEq, Repr

/-- The `withRetry` loop of `src/utils/retry.ts`, with `fuel` the
number of attempts remaining: run `fn`; on error, rethrow when this was
the last attempt, otherwise sleep the current delay and retry with
`delay = min(delay * backoffMultiplier, maxDelayMs)`. -/
def withRetryGo (fn : ExecState → ExecState × Except String Nat) (opts : RetryOptions) :
    Nat → Nat → ExecState → ExecState × Except String Nat
  | 0, _, s => (s, .error "withRetry: loop exited without attempts")
  | fuel + 1, delay, s =>
    match fn s with
    | (s1, .ok v) => (s1, .ok v)
    | (s1, .error e) =>
      if fuel = 0 then (s1, .error e)
      else withRetryGo fn opts fuel (min (delay * opts.backoffMultiplier) opts.maxDelayMs)
        { s1 with trace := s1.trace ++ [TraceEv.sleep delay] }

/-- `withRetry fn opts` starting from the first attempt. -/
def withRetryModel (fn : ExecState → ExecState × Except String Nat)
    (opts : RetryOptions) (s : ExecState) : ExecState × Except String Nat :=
  withRetryGo fn opts opts.maxAttempts opts.initialDelayMs s

/-- The options `executeWithRetry` passes to `withRetry`. -/
def rpcRetryOptions : RetryOptions :=
  { maxAttempts := 3, initialDelayMs := 1000, maxDelayMs := 10000, backoffMultiplier := 2 }

/-- `SolanaRpcClient.executeWithRetry`. -/
def executeWithRetry (w : RpcWorld) (s : ExecState) : ExecState × Except String Nat :=
  withRetryModel (attemptOnce w) rpcRetryOptions s

/-- `SolanaRpcClient.getCurrentEndpoint`:
`this.endpoints[this.currentEndpointIndex]`. -/
def getCurrentEndpoint (c : RpcClientState) : String :=
  c.endpoints.getD c.currentEndpointIndex ""

/-- A world in which every operation invocation throws a non-retryable
(malformed-request) error. -/
def badRequestWorld : RpcWorld :=
  { opRes := fun _ => .error "Invalid method parameters",
    probeOk := fun _ => true }

/-- Counterexample to C3: a non-retryable error is not propagated
immediately.  With every operation invocation throwing
`"Invalid method parameters"` (not in the retryable class), the
operation is invoked 3 times — not once — with backoff sleeps of
1000 ms and 2000 ms between the attempts, before the error reaches the
caller. -/
theorem rpc_nonretryable_counterexample :
    (executeWithRetry badRequestWorld (mkInitState ["primary", "fallback"])).2 =
      .error "Invalid method parameters" ∧
    (executeWithRetry badRequestWorld (mkInitState ["primary", "fallback"])).1.opCount = 3 ∧
    (executeWithRetry badRequestWorld (mkInitState ["primary", "fallback"])).1.opCount ≠ 1 ∧
    TraceEv.sleep 1000 ∈
      (executeWithRetry badRequestWorld (mkInitState ["primary", "fallback"])).1.trace ∧
    TraceEv.sleep 2000 ∈
      (executeWithRetry badRequestWorld (mkInitState ["primary", "fallback"])).1.trace := by
  refine ⟨?_, ?_, ?_, ?_, ?_⟩ <;> decide

/-- C3 (amended): an error outside the retryable class skips failover
entirely (no probe runs, the endpoint index and connection are
untouched), but it still passes through the generic `withRetry` loop:
the operation is attempted `maxAttempts = 3` times with backoff sleeps
of 1000 ms and 2000 ms between attempts, and only the final attempt's
error propagates to the caller. -/
theorem rpc_nonretryable_retried_then_propagated (w : RpcWorld) (eps : List String)
    (msg : String) (hall : ∀ n, w.opRes n = .error msg)
    (hnf : shouldFailover msg = false) :
    executeWithRetry w (mkInitState eps) =
      ({ client := (mkInitState eps).client, opCount := 3, probeCount := 0,
         trace := [TraceEv.op (eps.getD 0 "") (.error msg), TraceEv.sleep 1000,
                   TraceEv.op (eps.getD 0 "") (.error msg), TraceEv.sleep 2000,
                   TraceEv.op (eps.getD 0 "") (.error msg)] }, .error msg) := by
  have hstep : ∀ s : ExecState, attemptOnce w s =
      ({ s with opCount := s.opCount + 1,
                trace := s.trace ++ [TraceEv.op s.client.connection (Except.error msg)] },
       Except.error msg) := by
    intro s
    simp only [attemptOnce, runOp, hall, hnf]
    simp
  simp only [executeWithRetry, withRetryModel, rpcRetryOptions]
  simp only [withRetryGo, hstep]
  simp [mkInitState]

/-- Witness for C3 (amended): the `badRequestWorld` run realizes the
three attempts, the two sleeps, the untouched client, and the final
propagation. -/
theorem rpc_nonretryable_retried_then_propagated_witness :
    (∀ n, badRequestWorld.opRes n = .error "Invalid method parameters") ∧
    shouldFailover "Invalid method parameters" = false ∧
    executeWithRetry badRequestWorld (mkInitState ["primary", "fallback"]) =
      ({ client := (mkInitState ["primary", "fallback"]).client, opCount := 3, probeCount := 0,
         trace := [TraceEv.op (["primary", "fallback"].getD 0 "")
                     (.error "Invalid method parameters"), TraceEv.sleep 1000,
                   TraceEv.op (["primary", "fallback"].getD 0 "")
                     (.error "Invalid method parameters"), TraceEv.sleep 2000,
                   TraceEv.op (["primary", "fallback"].getD 0 "")
                     (.error "Invalid method parameters")] },
       .error "Invalid method parameters") :=
  ⟨fun _ => rfl, by decide,
   rpc_nonretryable_retried_then_propagated badRequestWorld ["primary", "fallback"]
     "Invalid method parameters" (fun _ => rfl) (by decide)⟩

/-- A world in which every operation invocation against `endpoint[0]`
fails with a retryable timeout, probes always succeed, and the
operation eventually succeeds on `endpoint[1]` (the 6th scripted
invocation). -/
def failoverScriptWorld : RpcWorld :=
  { opRes := fun n => if n = 5 then .ok 42 else .error "connection timeout",
    probeOk := fun _ => true }

/-- C5: (i) `failover`, when not already in progress and with at least
one fallback endpoint, advances the endpoint index by one with
wrap-around, points the connection at the new endpoint and probes it;
(ii) on a retryable operation error, the attempt runs `failover` and
then retries the operation against the new connection; (iii) in the
scripted run where every operation against `endpoint[0]` fails with a
retryable timeout, the call returns the success obtained on
`endpoint[1]` after exactly 3 retryable failures on `endpoint[0]`, and
`getCurrentEndpoint()` afterwards returns `endpoint[1]`. -/
theorem rpc_failover_advances_and_retries :
    (∀ (w : RpcWorld) (s : ExecState),
      s.client.failoverInProgress = false →
      2 ≤ s.client.endpoints.length →
      (failover w s).1.client.currentEndpointIndex =
        (s.client.currentEndpointIndex + 1) % s.client.endpoints.length ∧
      (failover w s).1.client.connection =
        s.client.endpoints.getD
          ((s.client.currentEndpointIndex + 1) % s.client.endpoints.length) "" ∧
      (failover w s).1.trace = s.trace ++
        [TraceEv.probe (s.client.endpoints.getD
            ((s.client.currentEndpointIndex + 1) % s.client.endpoints.length) "")
          (w.probeOk s.probeCount)]) ∧
    (∀ (w : RpcWorld) (s s1 s2 : ExecState) (msg : String),
      runOp w s = (s1, .error msg) → shouldFailover msg = true →
      failover w s1 = (s2, .ok ()) →
      attemptOnce w s = runOp w s2) ∧
    ((executeWithRetry failoverScriptWorld (mkInitState ["epA", "epB"])).2 = .ok 42 ∧
     getCurrentEndpoint
        (executeWithRetry failoverScriptWorld (mkInitState ["epA", "epB"])).1.client =
       ["epA", "epB"].getD 1 "" ∧
     ((executeWithRetry failoverScriptWorld (mkInitState ["epA", "epB"])).1.trace.filter
        fun t => match t with | TraceEv.op "epA" _ => true | _ => false) =
       [TraceEv.op "epA" (.error "connection timeout"),
        TraceEv.op "epA" (.error "connection timeout"),
        TraceEv.op "epA" (.error "connection timeout")] ∧
     (executeWithRetry failoverScriptWorld (mkInitState ["epA", "epB"])).1.trace.getLast? =
       some (TraceEv.op "epB" (.ok 42))) := by
  refine ⟨?_, ?_, ?_⟩
  · intro w s hfip hlen
    simp only [failover, hfip, Bool.false_eq_true, if_false]
    rw [if_neg (by omega)]
    split <;> exact ⟨rfl, rfl, rfl⟩
  · intro w s s1 s2 msg hrun hsf hfo
    simp only [attemptOnce, hrun, hsf, hfo]
    simp
  · refine ⟨?_, ?_, ?_, ?_⟩ <;> decide

/-- Witness for C5: the mechanics of (i) at a concrete state — one
failover from `endpoint[0]` of two endpoints moves the index to 1 —
discharging the guard and fallback-count hypotheses. -/
theorem rpc_failover_advances_and_retries_witness :
    (mkInitState ["epA", "epB"]).client.failoverInProgress = false ∧
    2 ≤ (mkInitState ["epA", "epB"]).client.endpoints.length ∧
    (failover failoverScriptWorld (mkInitState ["epA", "epB"])).1.client.currentEndpointIndex =
      ((mkInitState ["epA", "epB"]).client.currentEndpointIndex + 1) %
        (mkInitState ["epA", "epB"]).client.endpoints.length :=
  ⟨rfl, by decide,
   (rpc_failover_advances_and_retries.1 failoverScriptWorld (mkInitState ["epA", "epB"])
     rfl (by decide)).1⟩

end SolanaIndexer
